import Mathlib

set_option maxRecDepth 40000

/-!
Verification development for the AuthTiles repository (src/App.tsx).

The OTP-relevant logic of the repository consists of two functions:
`generateTOTP` (App.tsx lines 35-49) and the provisioning-URI handling inside
`handleQRScan` (App.tsx lines 243-300), together with the `Account` record
(lines 23-32).  This file gives a shallow embedding of those functions and
proves or refutes the frozen claims about them.

Modelling conventions:
- JavaScript numbers that flow through 32-bit integer operators (`<<`, `&`)
  are modelled as `Int` with an explicit `toInt32` wrap at exactly the places
  the JS semantics coerce to int32.
- The third-party `jsotp` library call `jsotp.TOTP(secret).now()` is not part
  of this repository; it is modelled as an oracle parameter
  `lib : String → Int → Except Unit String` (secret and ambient clock reading
  in milliseconds; `Except.error` models a thrown exception).
- The ambient clock (`Date.now()` and the clock read internally by
  `totp.now()`) is a single explicit parameter `nowMs`, because both reads
  happen in the same invocation.
- `charCodeAt` is modelled by `Char.toNat`; this agrees with JS for all
  characters of the Basic Multilingual Plane, which covers every string in
  the claims.
-/

/-! ## JavaScript integer primitives -/

/-- JS ToInt32: wrap an integer into the range [-2^31, 2^31). -/
def toInt32 (n : Int) : Int := (n + 2 ^ 31) % 2 ^ 32 - 2 ^ 31

/-- JS `a << 5` on an integer a: coerce to int32, multiply by 32, wrap to int32. -/
def jsShl5 (a : Int) : Int := toInt32 (toInt32 a * 32)

/-! ## The fallback pseudo-code of generateTOTP (App.tsx lines 41-47) -/

/-- One step of the reducer at App.tsx lines 42-45:
`a = ((a << 5) - a) + b.charCodeAt(0); return a & a;`
(`a & a` is exactly the ToInt32 coercion). -/
def hashStep (a : Int) (b : Char) : Int := toInt32 (jsShl5 a - a + (b.toNat : Int))

/-- The reduce at App.tsx lines 42-45: fold `hashStep` over the characters of
the secret, starting from the time step. -/
def hashOf (secret : String) (timeStep : Int) : Int := secret.data.foldl hashStep timeStep

/-- `Math.abs(hash % 1000000)` at App.tsx line 47.  JS `%` is a remainder that
takes the sign of the dividend, so the absolute value of `hash % 1000000`
equals `|hash| % 1000000`. -/
def fallbackNum (secret : String) (timeStep : Int) : Nat := (hashOf secret timeStep).natAbs % 1000000

/-- Little-endian decimal digits of a natural number, fuelled structural
recursion (fuel `n + 1` always suffices because the argument strictly
decreases). Models the digit sequence of JS `Number.prototype.toString`. -/
def toDecLEFuel : Nat → Nat → List Nat
  | 0, _ => []
  | fuel + 1, n => if n < 10 then [n] else n % 10 :: toDecLEFuel fuel (n / 10)

/-- Little-endian decimal digits of a natural number. -/
def toDecLE (n : Nat) : List Nat := toDecLEFuel (n + 1) n

/-- The character for a single decimal digit. -/
def digitCharOf (d : Nat) : Char := Char.ofNat (48 + d)

/-- JS `Number.prototype.toString` for a nonnegative integer. -/
def jsNatToString (n : Nat) : String := String.mk ((toDecLE n).reverse.map digitCharOf)

/-- JS `String.prototype.padStart(n, c)` for a one-character pad, on the
character list of the string. -/
def padStartList (n : Nat) (c : Char) (l : List Char) : List Char :=
  List.replicate (n - l.length) c ++ l

/-- The catch branch of `generateTOTP` (App.tsx lines 39-47): hash the secret
string seeded with `Math.floor(Date.now() / 30000)` and format the result as
a zero-padded 6-character decimal string. -/
def fallbackCode (secret : String) (nowMs : Int) : String :=
  String.mk (padStartList 6 '0' (jsNatToString (fallbackNum secret (Int.fdiv nowMs 30000))).data)

/-! ## The generator (App.tsx lines 35-49) -/

/-- The behaviour of the external `jsotp` library call
`jsotp.TOTP(secret).now()`: a function of the secret and the ambient clock
reading in milliseconds; `Except.error ()` models a thrown exception. -/
def JsLib : Type := String → Int → Except Unit String

/-- JS `try { body } catch (e) { handler }` where both produce a value. -/
def jsTryCatch (body : Except Unit String) (handler : Unit → Except Unit String) :
    Except Unit String :=
  match body with
  | .ok v => .ok v
  | .error e => handler e

/-- `generateTOTP` (App.tsx lines 35-49) as the caller observes it: the value
of the try/catch expression.  `lib` is the external jsotp call, `nowMs` the
ambient clock reading at the moment of the call. -/
def generateTOTP (lib : JsLib) (secret : String) (nowMs : Int) : String :=
  match lib secret nowMs with
  | .ok code => code
  | .error _ => fallbackCode secret nowMs

/-- `generateTOTP` with the exception behaviour made explicit: the try/catch
structure of App.tsx lines 36-48 in the exception monad. -/
def generateTOTPTry (lib : JsLib) (secret : String) (nowMs : Int) : Except Unit String :=
  jsTryCatch (lib secret nowMs) (fun _ => Except.ok (fallbackCode secret nowMs))

/-- A jsotp oracle whose call always throws (e.g. the library rejects the
secret). -/
def failingLib : JsLib := fun _ _ => Except.error ()

/-! ## Lemmas about the fallback code format -/

theorem toDecLEFuel_length_le :
    ∀ (fuel n k : Nat), n < fuel → n < 10 ^ k → 1 ≤ k → (toDecLEFuel fuel n).length ≤ k := by
  intro fuel
  induction fuel with
  | zero => intro n k h; omega
  | succ f ih =>
    intro n k hfuel hpow hk
    unfold toDecLEFuel
    by_cases h10 : n < 10
    · simp [h10]; omega
    · simp [h10]
      cases k with
      | zero => omega
      | succ k0 =>
        cases k0 with
        | zero => simp at hpow; omega
        | succ k1 =>
          have hdiv : n / 10 < 10 ^ (k1 + 1) := by
            apply (Nat.div_lt_iff_lt_mul (by omega : 0 < 10)).mpr
            calc n < 10 ^ (k1 + 1 + 1) := hpow
              _ = 10 ^ (k1 + 1) * 10 := by ring
          have hfuel2 : n / 10 < f := by
            have : n / 10 < n := Nat.div_lt_self (by omega) (by omega)
            omega
          have := ih (n / 10) (k1 + 1) hfuel2 hdiv (by omega)
          omega

theorem toDecLEFuel_digits_lt :
    ∀ (fuel n : Nat), n < fuel → ∀ d ∈ toDecLEFuel fuel n, d < 10 := by
  intro fuel
  induction fuel with
  | zero => intro n h; omega
  | succ f ih =>
    intro n hfuel d hd
    unfold toDecLEFuel at hd
    by_cases h10 : n < 10
    · simp [h10] at hd; omega
    · simp [h10] at hd
      rcases hd with hd | hd
      · omega
      · have hfuel2 : n / 10 < f := by
          have : n / 10 < n := Nat.div_lt_self (by omega) (by omega)
          omega
        exact ih (n / 10) hfuel2 d hd

theorem toDecLE_length_le {n k : Nat} (hpow : n < 10 ^ k) (hk : 1 ≤ k) :
    (toDecLE n).length ≤ k :=
  toDecLEFuel_length_le (n + 1) n k (Nat.lt_succ_self n) hpow hk

theorem toDecLE_digits_lt {n : Nat} : ∀ d ∈ toDecLE n, d < 10 :=
  toDecLEFuel_digits_lt (n + 1) n (Nat.lt_succ_self n)

theorem fallbackNum_lt (secret : String) (timeStep : Int) :
    fallbackNum secret timeStep < 1000000 :=
  Nat.mod_lt _ (by omega)

theorem digitCharOf_isDigit {d : Nat} (h : d < 10) : (digitCharOf d).isDigit = true := by
  interval_cases d <;> decide

theorem padStartList_length (n : Nat) (c : Char) (l : List Char) (h : l.length ≤ n) :
    (padStartList n c l).length = n := by
  simp [padStartList]
  omega

theorem fallbackCode_length (secret : String) (nowMs : Int) :
    (fallbackCode secret nowMs).length = 6 := by
  show (padStartList 6 '0' (jsNatToString (fallbackNum secret (Int.fdiv nowMs 30000))).data).length = 6
  apply padStartList_length
  show ((toDecLE (fallbackNum secret (Int.fdiv nowMs 30000))).reverse.map digitCharOf).length ≤ 6
  rw [List.length_map, List.length_reverse]
  exact toDecLE_length_le (by have := fallbackNum_lt secret (Int.fdiv nowMs 30000); omega) (by omega)

theorem fallbackCode_all_digits (secret : String) (nowMs : Int) :
    (fallbackCode secret nowMs).data.all Char.isDigit = true := by
  show (padStartList 6 '0' (jsNatToString (fallbackNum secret (Int.fdiv nowMs 30000))).data).all
    Char.isDigit = true
  rw [List.all_eq_true]
  intro c hc
  rw [padStartList] at hc
  rcases List.mem_append.mp hc with hrep | hmem
  · rw [List.eq_of_mem_replicate hrep]; decide
  · show c.isDigit = true
    rcases List.mem_map.mp hmem with ⟨d, hd, rfl⟩
    exact digitCharOf_isDigit (toDecLE_digits_lt d (List.mem_reverse.mp hd))

/-! ## The provisioning-URI handling of handleQRScan (App.tsx lines 243-300)

`handleQRScan` checks `qrData.startsWith('otpauth://totp/')`, builds
`new URL(qrData)`, percent-decodes the pathname into the label, splits the
label with `label.split(':', 2)`, resolves issuer / accountName defaults,
reads the `secret` query parameter (rejecting a missing or empty one) and
appends a new `Account` to the list.  The WHATWG URL behaviour used by the
code is modelled here for otpauth URIs: the scheme is non-special, the host
segment is `totp`, `url.pathname` is `'/' ++` the characters up to the first
`'?'` or `'#'`, and `url.search` is what stands between the first `'?'` and a
`'#'`.  Percent-decoding is modelled for single-byte (ASCII) escape
sequences, which covers every string occurring in the claims; multi-byte
UTF-8 escapes are outside the model. -/

/-- Digit value of a hex character, as used by percent-decoding. -/
def hexVal (c : Char) : Option Nat :=
  if '0' ≤ c ∧ c ≤ '9' then some (c.toNat - 48)
  else if 'A' ≤ c ∧ c ≤ 'F' then some (c.toNat - 55)
  else if 'a' ≤ c ∧ c ≤ 'f' then some (c.toNat - 87)
  else none

/-- JS `decodeURIComponent` on a character list (ASCII escape sequences);
`none` models a thrown `URIError`. -/
def decodeURIChars : List Char → Option (List Char)
  | [] => some []
  | c :: cs =>
    if c = '%' then
      match cs with
      | h :: l :: rest =>
        match hexVal h, hexVal l with
        | some hv, some lv =>
          if hv * 16 + lv < 128 then
            match decodeURIChars rest with
            | some tail => some (Char.ofNat (hv * 16 + lv) :: tail)
            | none => none
          else none
        | _, _ => none
      | _ => none
    else
      match decodeURIChars cs with
      | some tail => some (c :: tail)
      | none => none

/-- The percent-decoding URLSearchParams applies to names and values:
`'+'` becomes a space, valid ASCII escapes are decoded, anything else is
passed through unchanged (URLSearchParams never throws).  Fuelled structural
recursion; fuel equal to the list length always suffices because an invalid
escape consumes the `'%'` and continues at the next character. -/
def decodeQueryFuel : Nat → List Char → List Char
  | 0, _ => []
  | _ + 1, [] => []
  | fuel + 1, c :: cs =>
    if c = '+' then ' ' :: decodeQueryFuel fuel cs
    else if c = '%' then
      match cs with
      | h :: l :: rest =>
        match hexVal h, hexVal l with
        | some hv, some lv =>
          if hv * 16 + lv < 128 then Char.ofNat (hv * 16 + lv) :: decodeQueryFuel fuel rest
          else c :: decodeQueryFuel fuel cs
        | _, _ => c :: decodeQueryFuel fuel cs
      | _ => c :: decodeQueryFuel fuel cs
    else c :: decodeQueryFuel fuel cs

/-- URLSearchParams percent-decoding of a name or value. -/
def decodeQueryChars (l : List Char) : List Char := decodeQueryFuel l.length l

/-- Characters of a string up to (excluding) the first occurrence of `c`. -/
def takeUntilCh (c : Char) : List Char → List Char
  | [] => []
  | x :: xs => if x = c then [] else x :: takeUntilCh c xs

/-- Characters of a string after the first occurrence of `c` (empty when `c`
does not occur). -/
def dropPastCh (c : Char) : List Char → List Char
  | [] => []
  | x :: xs => if x = c then xs else dropPastCh c xs

/-- The pathname characters of the URL: everything up to the first `'?'` or
`'#'` (the leading `'/'` is added by the caller). -/
def pathChars : List Char → List Char
  | [] => []
  | c :: cs => if c = '?' ∨ c = '#' then [] else c :: pathChars cs

/-- The query characters of the URL: what stands between the first `'?'` and
a subsequent `'#'`. -/
def queryChars : List Char → List Char
  | [] => []
  | c :: cs => if c = '#' then [] else if c = '?' then takeUntilCh '#' cs else queryChars cs

/-- Split a character list at every occurrence of `c`; always returns at
least one (possibly empty) segment. -/
def splitChar (c : Char) : List Char → List (List Char)
  | [] => [[]]
  | x :: xs =>
    match splitChar c xs with
    | [] => [[x]]
    | y :: ys => if x = c then [] :: y :: ys else (x :: y) :: ys

/-- One `name=value` segment of the query, decoded the way URLSearchParams
does: the name is everything before the first `'='`, the value everything
after it (empty when there is no `'='`). -/
def pairOf (seg : List Char) : String × String :=
  (String.mk (decodeQueryChars (takeUntilCh '=' seg)),
   String.mk (decodeQueryChars (dropPastCh '=' seg)))

/-- The decoded name/value pairs of a query string; empty segments are
skipped, as URLSearchParams does. -/
def queryPairs (q : List Char) : List (String × String) :=
  ((splitChar '&' q).filter (fun seg => seg ≠ [])).map pairOf

/-- `url.searchParams.get(k)`: the value of the first pair whose decoded name
is `k`, or `none`. -/
def getParam (q : List Char) (k : String) : Option String :=
  ((queryPairs q).find? (fun p => p.1 == k)).map (fun p => p.2)

/-- Strip a prefix from a character list; `none` when the list does not start
with it.  Models `qrData.startsWith('otpauth://totp/')` together with taking
the remainder. -/
def stripPrefCh : List Char → List Char → Option (List Char)
  | [], l => some l
  | _ :: _, [] => none
  | p :: ps, x :: xs => if p = x then stripPrefCh ps xs else none

/-- The scheme-and-type prefix checked at App.tsx line 247. -/
def otpPref : List Char := "otpauth://totp/".data

/-- The error outcomes of a scan, one per alert branch of `handleQRScan`:
`invalidQRCode` is the else branch at line 298 (input does not start with
`otpauth://totp/`), `invalidFormat` is the catch branch at line 295
(URL machinery threw), `missingSecret` is the early return at line 269. -/
inductive ParseErr where
  | invalidQRCode
  | invalidFormat
  | missingSecret
deriving DecidableEq, Repr

/-- The credential data extracted by a successful scan: exactly the fields of
the `Account` record that come from the URI (App.tsx lines 273-277). -/
structure ParsedCred where
  issuer : String
  accountName : String
  secret : String
deriving DecidableEq, Repr

deriving instance DecidableEq for Except

/-- App.tsx lines 252-284 given the decoded label and the raw query: resolve
issuer (query parameter first, then label part, then `"Account"`), resolve
accountName (label part, then `"Unknown"`), then read the mandatory `secret`
parameter; `!secret` is true for both a missing and an empty value. -/
def parseLabelQuery (label query : List Char) : Except ParseErr ParsedCred :=
  let issuer0 := (getParam query "issuer").getD ""
  let pair :=
    if ':' ∈ label then
      (if issuer0 = "" then String.mk (takeUntilCh ':' label) else issuer0,
       String.mk (takeUntilCh ':' (dropPastCh ':' label)))
    else
      (if issuer0 = "" then String.mk label else issuer0, String.mk label)
  let issuer := if pair.1 = "" then "Account" else pair.1
  let accountName := if pair.2 = "" then "Unknown" else pair.2
  match getParam query "secret" with
  | none => Except.error ParseErr.missingSecret
  | some s => if s = "" then Except.error ParseErr.missingSecret
              else Except.ok ⟨issuer, accountName, s⟩

/-- App.tsx lines 249-250 on the part after the prefix: build the URL,
percent-decode the pathname (the catch branch turns a decode failure into the
invalid-format alert), drop the leading `'/'` and continue. -/
def parseRest (rest : List Char) : Except ParseErr ParsedCred :=
  match decodeURIChars ('/' :: pathChars rest) with
  | none => Except.error ParseErr.invalidFormat
  | some decodedPath => parseLabelQuery (decodedPath.drop 1) (queryChars rest)

/-- The URI-parsing part of `handleQRScan` (App.tsx lines 247-284) on a
character list: prefix check, then URL handling. -/
def handleParseCh (qr : List Char) : Except ParseErr ParsedCred :=
  match stripPrefCh otpPref qr with
  | none => Except.error ParseErr.invalidQRCode
  | some rest => parseRest rest

/-- The URI-parsing part of `handleQRScan` on the scanned string. -/
def handleParse (qr : String) : Except ParseErr ParsedCred :=
  handleParseCh qr.data

/-- The `Account` record (App.tsx lines 23-32). -/
structure Account where
  id : String
  issuer : String
  accountName : String
  secret : String
  x : Int
  y : Int
  width : Int
  height : Int
deriving DecidableEq, Repr

/-- The environment values read when an account is created (App.tsx lines
274-279): `Date.now().toString()` for the id and the two already-computed
random tile positions. -/
structure ScanEnv where
  nowId : String
  randX : Int
  randY : Int

/-- The `newAccount` literal at App.tsx lines 273-282. -/
def mkAccount (env : ScanEnv) (c : ParsedCred) : Account :=
  ⟨env.nowId, c.issuer, c.accountName, c.secret, env.randX, env.randY, 180, 100⟩

/-- The effect of one `handleQRScan` call on the stored account list: a
successful parse appends the new account (`setAccounts(prev => [...prev,
newAccount])`, line 284); every error branch leaves the list unchanged. -/
def handleQRScan (env : ScanEnv) (qr : String) (accounts : List Account) : List Account :=
  match handleParse qr with
  | Except.ok c => accounts ++ [mkAccount env c]
  | Except.error _ => accounts

/-! ## Helper lemmas about the URL model -/

theorem stripPrefCh_append : ∀ (p r : List Char), stripPrefCh p (p ++ r) = some r
  | [], _ => rfl
  | p :: ps, r => by simp [stripPrefCh, stripPrefCh_append ps r]

theorem takeUntilCh_of_not_mem (c : Char) (xs : List Char) (h : c ∉ xs) :
    takeUntilCh c xs = xs := by
  induction xs with
  | nil => rfl
  | cons x xs ih =>
    have hx : ¬ x = c := fun he => h (he ▸ List.mem_cons_self x xs)
    simp only [takeUntilCh, if_neg hx]
    rw [ih (fun hm => h (List.mem_cons_of_mem x hm))]

theorem takeUntilCh_append_cons (c : Char) (xs ys : List Char) (h : c ∉ xs) :
    takeUntilCh c (xs ++ c :: ys) = xs := by
  induction xs with
  | nil =>
    show takeUntilCh c (c :: ys) = []
    simp [takeUntilCh]
  | cons x xs ih =>
    have hx : ¬ x = c := fun he => h (he ▸ List.mem_cons_self x xs)
    show takeUntilCh c (x :: (xs ++ c :: ys)) = x :: xs
    simp only [takeUntilCh, if_neg hx]
    exact congrArg (x :: ·) (ih (fun hm => h (List.mem_cons_of_mem x hm)))

theorem dropPastCh_append_cons (c : Char) (xs ys : List Char) (h : c ∉ xs) :
    dropPastCh c (xs ++ c :: ys) = ys := by
  induction xs with
  | nil =>
    show dropPastCh c (c :: ys) = ys
    simp [dropPastCh]
  | cons x xs ih =>
    have hx : ¬ x = c := fun he => h (he ▸ List.mem_cons_self x xs)
    show dropPastCh c (x :: (xs ++ c :: ys)) = ys
    simp only [dropPastCh, if_neg hx]
    exact ih (fun hm => h (List.mem_cons_of_mem x hm))

theorem pathChars_append_query (xs ys : List Char)
    (h : ∀ ch ∈ xs, ch ≠ '?' ∧ ch ≠ '#') :
    pathChars (xs ++ '?' :: ys) = xs := by
  induction xs with
  | nil =>
    show pathChars ('?' :: ys) = []
    simp [pathChars]
  | cons x xs ih =>
    have hx := h x (List.mem_cons_self x xs)
    have hcond : ¬ (x = '?' ∨ x = '#') := fun hor => hor.elim hx.1 hx.2
    show pathChars (x :: (xs ++ '?' :: ys)) = x :: xs
    simp only [pathChars, if_neg hcond]
    exact congrArg (x :: ·) (ih (fun ch hm => h ch (List.mem_cons_of_mem x hm)))

theorem queryChars_append_query (xs ys : List Char)
    (h : ∀ ch ∈ xs, ch ≠ '?' ∧ ch ≠ '#') :
    queryChars (xs ++ '?' :: ys) = takeUntilCh '#' ys := by
  induction xs with
  | nil =>
    show queryChars ('?' :: ys) = takeUntilCh '#' ys
    simp [queryChars]
  | cons x xs ih =>
    have hx := h x (List.mem_cons_self x xs)
    show queryChars (x :: (xs ++ '?' :: ys)) = takeUntilCh '#' ys
    simp only [queryChars, if_neg hx.2, if_neg hx.1]
    exact ih (fun ch hm => h ch (List.mem_cons_of_mem x hm))

theorem decodeURIChars_id (xs : List Char) (h : '%' ∉ xs) :
    decodeURIChars xs = some xs := by
  induction xs with
  | nil => rfl
  | cons x xs ih =>
    have hx : ¬ x = '%' := fun he => h (he ▸ List.mem_cons_self x xs)
    rw [decodeURIChars.eq_def]
    simp only [if_neg hx]
    rw [ih (fun hm => h (List.mem_cons_of_mem x hm))]

theorem decodeQueryFuel_id :
    ∀ (fuel : Nat) (l : List Char), l.length ≤ fuel → '%' ∉ l → '+' ∉ l →
      decodeQueryFuel fuel l = l := by
  intro fuel
  induction fuel with
  | zero =>
    intro l hlen _ _
    have hl : l = [] := List.length_eq_zero.mp (Nat.le_zero.mp hlen)
    subst hl
    rfl
  | succ f ih =>
    intro l hlen hp hplus
    cases l with
    | nil => rfl
    | cons x xs =>
      have hx : ¬ x = '%' := fun he => hp (he ▸ List.mem_cons_self x xs)
      have hx2 : ¬ x = '+' := fun he => hplus (he ▸ List.mem_cons_self x xs)
      simp only [decodeQueryFuel, if_neg hx, if_neg hx2]
      exact congrArg (x :: ·) (ih xs (by simp at hlen; omega)
        (fun hm => hp (List.mem_cons_of_mem x hm))
        (fun hm => hplus (List.mem_cons_of_mem x hm)))

theorem decodeQueryChars_id (l : List Char) (hp : '%' ∉ l) (hplus : '+' ∉ l) :
    decodeQueryChars l = l :=
  decodeQueryFuel_id l.length l (Nat.le_refl _) hp hplus

theorem splitChar_of_not_mem (c : Char) (xs : List Char) (h : c ∉ xs) :
    splitChar c xs = [xs] := by
  induction xs with
  | nil => rfl
  | cons x xs ih =>
    have hx : ¬ x = c := fun he => h (he ▸ List.mem_cons_self x xs)
    simp only [splitChar, ih (fun hm => h (List.mem_cons_of_mem x hm)), if_neg hx]

theorem mkString_eq_empty_iff (l : List Char) : String.mk l = "" ↔ l = [] := by
  constructor
  · intro h
    exact congrArg String.data h
  · intro h
    subst h
    rfl

theorem parseLabelQuery_congr (label q1 q2 : List Char)
    (hi : getParam q1 "issuer" = getParam q2 "issuer")
    (hs : getParam q1 "secret" = getParam q2 "secret") :
    parseLabelQuery label q1 = parseLabelQuery label q2 := by
  unfold parseLabelQuery
  rw [hi, hs]

theorem handleParseCh_label_query (label q : List Char)
    (hL : ∀ ch ∈ label, ch ≠ '?' ∧ ch ≠ '#' ∧ ch ≠ '%') (hq : '#' ∉ q) :
    handleParseCh (otpPref ++ (label ++ '?' :: q)) = parseLabelQuery label q := by
  have h1 : stripPrefCh otpPref (otpPref ++ (label ++ '?' :: q)) = some (label ++ '?' :: q) :=
    stripPrefCh_append otpPref (label ++ '?' :: q)
  simp only [handleParseCh, h1, parseRest]
  rw [pathChars_append_query label q (fun ch hm => ⟨(hL ch hm).1, (hL ch hm).2.1⟩),
    queryChars_append_query label q (fun ch hm => ⟨(hL ch hm).1, (hL ch hm).2.1⟩)]
  have hdec : decodeURIChars ('/' :: label) = some ('/' :: label) := by
    apply decodeURIChars_id
    intro hm
    rcases List.mem_cons.mp hm with h | h
    · exact absurd h.symm (by decide)
    · exact (hL '%' h).2.2 rfl
  rw [hdec, takeUntilCh_of_not_mem '#' q hq]
  rfl

/-! ## Claims about the generator -/

/-- C1: the claim states that when the TOTP computation cannot process the
secret, the generator fails with an explicit CorruptCredential error and
never returns a degraded numeric output.  The code does the opposite: the
catch branch of `generateTOTP` (App.tsx lines 39-47) silently replaces the
thrown library error by the non-cryptographic hashed-string pseudo-code.
Evaluated at a concrete failing call: the caller receives the fallback
6-digit pseudo-code "712010", never an error value. -/
theorem generateTOTP_silent_fallback_on_failure :
    generateTOTP failingLib "JBSWY3DPEHPK3PXP" 59000 = fallbackCode "JBSWY3DPEHPK3PXP" 59000
    ∧ generateTOTP failingLib "JBSWY3DPEHPK3PXP" 59000 = "712010" :=
  ⟨rfl, by decide⟩

/-- C2 counterexample: the claim states that the generator is a function of
(credential, atTime) with the time supplied by the caller and the clock never
read internally.  In the code `generateTOTP` takes only the secret and reads
the ambient clock itself, so its output is not invariant under the ambient
clock reading: with the same secret and the same library behaviour, ambient
times 0 and 30000 ms give different codes. -/
theorem generateTOTP_time_invariance_cex :
    ¬ (∀ (lib : JsLib) (s : String) (t1 t2 : Int),
        generateTOTP lib s t1 = generateTOTP lib s t2) :=
  fun h => absurd (h failingLib "A" 0 30000) (by decide)

/-- C2 amended: `generateTOTP` takes only the secret; it reads the ambient
clock itself (`Date.now()` in the fallback, the library's own clock in
`totp.now()`), so for a fixed secret the result varies with ambient time:
at 0 ms the fallback yields "000065", at 30000 ms it yields "000096".
Given the secret, the library behaviour and the ambient clock reading, the
result is determined. -/
theorem generateTOTP_reads_ambient_clock :
    generateTOTP failingLib "A" 0 = "000065"
    ∧ generateTOTP failingLib "A" 30000 = "000096"
    ∧ generateTOTP failingLib "A" 0 ≠ generateTOTP failingLib "A" 30000 := by
  decide

/-- C8 counterexample: the claim states the generated code has length exactly
`credential.digits`.  The stored credential has no digits field at all: a URI
requesting `digits=8` parses to a credential recording only issuer, account
name and secret, and the generated code for that secret (here in the
reachable fallback branch) has length 6, not 8. -/
theorem generate_digits_length_cex :
    handleParse "otpauth://totp/A?secret=JBSWY3DPEHPK3PXP&digits=8"
      = Except.ok ⟨"A", "A", "JBSWY3DPEHPK3PXP"⟩
    ∧ (generateTOTP failingLib "JBSWY3DPEHPK3PXP" 0).length = 6
    ∧ (generateTOTP failingLib "JBSWY3DPEHPK3PXP" 0).length ≠ 8 := by
  decide

/-- C8 amended: the credential stores no digits field, so no digits-length
relationship with the credential can hold; in the fallback branch (the only
branch decided by this repository's own code) the generated code is always a
string of exactly 6 decimal digit characters, left-padded with zeros.  The
primary branch returns whatever string the external jsotp library produces. -/
theorem generateTOTP_fallback_six_digits (lib : JsLib) (s : String) (t : Int)
    (h : lib s t = Except.error ()) :
    (generateTOTP lib s t).length = 6
    ∧ (generateTOTP lib s t).data.all Char.isDigit = true := by
  have hg : generateTOTP lib s t = fallbackCode s t := by
    unfold generateTOTP
    rw [h]
  rw [hg]
  exact ⟨fallbackCode_length s t, fallbackCode_all_digits s t⟩

/-- C8 witness: the amended statement instantiated at a concrete failing
library call. -/
theorem generateTOTP_fallback_six_digits_witness :
    (generateTOTP failingLib "JBSWY3DPEHPK3PXP" 59000).length = 6
    ∧ (generateTOTP failingLib "JBSWY3DPEHPK3PXP" 59000).data.all Char.isDigit = true :=
  generateTOTP_fallback_six_digits failingLib "JBSWY3DPEHPK3PXP" 59000 rfl

/-- C9: the code-generation entry point is total at its public interface:
for every library behaviour, every secret string and every ambient time, the
try/catch expression of `generateTOTP` evaluates to a normal string result
(`Except.ok`), never to a propagated exception, because the catch branch
handles the failure with the (total) fallback computation. -/
theorem generateTOTP_never_throws (lib : JsLib) (s : String) (t : Int) :
    generateTOTPTry lib s t = Except.ok (generateTOTP lib s t) := by
  unfold generateTOTPTry generateTOTP jsTryCatch
  cases lib s t <;> rfl

/-! ## Claims about the parser -/

/-- C3 counterexample: the claim states that a present but non-Base32 secret
is rejected with InvalidSecretEncoding.  The code performs no Base32
validation at all: `secret=0189!` (characters outside the RFC 4648 alphabet)
is accepted and a credential carrying that secret verbatim is constructed. -/
theorem parse_invalid_base32_accepted_cex :
    handleParse "otpauth://totp/A?secret=0189!"
      = Except.ok ⟨"A", "A", "0189!"⟩ := by
  decide

/-- C3 amended: `handleQRScan` applies no validation to the secret value:
every non-empty secret string (here: any query value without the
query-metacharacters `&`, `#`, `%`, `+`) is accepted verbatim into the
credential, whether or not it is Base32. -/
theorem parse_accepts_any_nonempty_secret (s : List Char) (h0 : s ≠ [])
    (h : ∀ ch ∈ s, ch ≠ '&' ∧ ch ≠ '#' ∧ ch ≠ '%' ∧ ch ≠ '+') :
    handleParseCh (otpPref ++ (['A'] ++ '?' :: ("secret=".data ++ s)))
      = Except.ok ⟨"A", "A", String.mk s⟩ := by
  have hq : '#' ∉ "secret=".data ++ s := by
    intro hm
    rcases List.mem_append.mp hm with hm | hm
    · exact absurd hm (by decide)
    · exact (h '#' hm).2.1 rfl
  rw [handleParseCh_label_query ['A'] ("secret=".data ++ s) (by decide) hq]
  have hamp : '&' ∉ "secret=".data ++ s := by
    intro hm
    rcases List.mem_append.mp hm with hm | hm
    · exact absurd hm (by decide)
    · exact (h '&' hm).1 rfl
  have hne : ("secret=".data ++ s) ≠ [] := by
    intro hc
    rcases List.append_eq_nil.mp hc with ⟨h1, _⟩
    exact absurd h1 (by decide)
  have hval : decodeQueryChars s = s :=
    decodeQueryChars_id s (fun hm => (h '%' hm).2.2.1 rfl) (fun hm => (h '+' hm).2.2.2 rfl)
  have hpair : pairOf ("secret=".data ++ s) = ("secret", String.mk s) := by
    show pairOf ("secret".data ++ '=' :: s) = ("secret", String.mk s)
    unfold pairOf
    rw [takeUntilCh_append_cons '=' _ _ (by decide), dropPastCh_append_cons '=' _ _ (by decide),
      hval]
    rfl
  have hpairs : queryPairs ("secret=".data ++ s) = [("secret", String.mk s)] := by
    unfold queryPairs
    rw [splitChar_of_not_mem '&' _ hamp, List.filter_cons]
    rw [if_pos (decide_eq_true hne), List.filter_nil, List.map_cons, List.map_nil, hpair]
  have hgi : getParam ("secret=".data ++ s) "issuer" = none := by
    unfold getParam
    rw [hpairs]
    rfl
  have hgs : getParam ("secret=".data ++ s) "secret" = some (String.mk s) := by
    unfold getParam
    rw [hpairs]
    rfl
  have hS : ¬ (String.mk s = "") := fun hc => h0 ((mkString_eq_empty_iff s).mp hc)
  unfold parseLabelQuery
  rw [hgi, hgs]
  simp only [Option.getD, if_neg (show ¬ (':' ∈ ['A']) by decide), if_neg hS]
  rfl

/-- C3 witness: the amended statement applied at the concrete non-Base32
secret "01!". -/
theorem parse_accepts_any_nonempty_secret_witness :
    handleParseCh (otpPref ++ (['A'] ++ '?' :: ("secret=".data ++ "01!".data)))
      = Except.ok ⟨"A", "A", "01!"⟩ :=
  parse_accepts_any_nonempty_secret "01!".data (by decide) (by decide)

/-- C4 counterexample: the claim states `digits=10` is rejected with
InvalidDigits.  The code never reads the digits parameter: the URI parses
successfully and the constructed credential records no digits at all. -/
theorem parse_digits10_accepted_cex :
    handleParse "otpauth://totp/A?secret=JBSWY3DPEHPK3PXP&digits=10"
      = Except.ok ⟨"A", "A", "JBSWY3DPEHPK3PXP"⟩ := by
  decide

/-- C4 amended: the digits query parameter is ignored entirely: `digits=6`,
`digits=8` and the out-of-range `digits=10` all parse successfully, each to
exactly the same credential as the URI without any digits parameter, and the
credential stores no digits value. -/
theorem parse_ignores_digits_param :
    handleParse "otpauth://totp/A?secret=JBSWY3DPEHPK3PXP&digits=6"
      = Except.ok ⟨"A", "A", "JBSWY3DPEHPK3PXP"⟩
    ∧ handleParse "otpauth://totp/A?secret=JBSWY3DPEHPK3PXP&digits=8"
      = Except.ok ⟨"A", "A", "JBSWY3DPEHPK3PXP"⟩
    ∧ handleParse "otpauth://totp/A?secret=JBSWY3DPEHPK3PXP&digits=10"
      = Except.ok ⟨"A", "A", "JBSWY3DPEHPK3PXP"⟩
    ∧ handleParse "otpauth://totp/A?secret=JBSWY3DPEHPK3PXP"
      = Except.ok ⟨"A", "A", "JBSWY3DPEHPK3PXP"⟩ := by
  decide

/-- C5 counterexample: the claim states that for a label with more than one
`:` the accountName is the entire remainder after the first `:`.  The code
uses `label.split(':', 2)`, whose JS semantics keep only the first two
segments, so the label `A:B:C` yields accountName "B" and drops ":C". -/
theorem parse_label_two_colons_cex :
    handleParse "otpauth://totp/A:B:C?secret=JBSWY3DPEHPK3PXP"
      = Except.ok ⟨"A", "B", "JBSWY3DPEHPK3PXP"⟩
    ∧ handleParse "otpauth://totp/A:B:C?secret=JBSWY3DPEHPK3PXP"
      ≠ Except.ok ⟨"A", "B:C", "JBSWY3DPEHPK3PXP"⟩ := by
  decide

/-- C5 amended: for a label of the shape `a:b:c` (a, b colon-free and
non-empty, c arbitrary), the issuer is `a` and the accountName is `b` alone:
everything from the second colon on is discarded, because `split(':', 2)`
keeps only the first two segments.  When the label contains no colon, the
whole label is both the accountName and the fallback issuer. -/
theorem parse_label_split_segments :
    (∀ (a b c : List Char),
      (∀ ch ∈ a, ch ≠ ':' ∧ ch ≠ '?' ∧ ch ≠ '#' ∧ ch ≠ '%') →
      (∀ ch ∈ b, ch ≠ ':' ∧ ch ≠ '?' ∧ ch ≠ '#' ∧ ch ≠ '%') →
      (∀ ch ∈ c, ch ≠ '?' ∧ ch ≠ '#' ∧ ch ≠ '%') →
      a ≠ [] → b ≠ [] →
      handleParseCh (otpPref ++ ((a ++ ':' :: (b ++ ':' :: c)) ++ '?' ::
          "secret=JBSWY3DPEHPK3PXP".data))
        = Except.ok ⟨String.mk a, String.mk b, "JBSWY3DPEHPK3PXP"⟩)
    ∧ (∀ (d : List Char),
      (∀ ch ∈ d, ch ≠ ':' ∧ ch ≠ '?' ∧ ch ≠ '#' ∧ ch ≠ '%') → d ≠ [] →
      handleParseCh (otpPref ++ (d ++ '?' :: "secret=JBSWY3DPEHPK3PXP".data))
        = Except.ok ⟨String.mk d, String.mk d, "JBSWY3DPEHPK3PXP"⟩) := by
  have hgi : getParam "secret=JBSWY3DPEHPK3PXP".data "issuer" = none := by decide
  have hgs : getParam "secret=JBSWY3DPEHPK3PXP".data "secret" = some "JBSWY3DPEHPK3PXP" := by
    decide
  have hqhash : '#' ∉ "secret=JBSWY3DPEHPK3PXP".data := by decide
  constructor
  · intro a b c ha hb hc ha0 hb0
    have hna : ':' ∉ a := fun hm => (ha ':' hm).1 rfl
    have hnb : ':' ∉ b := fun hm => (hb ':' hm).1 rfl
    have hL : ∀ ch ∈ a ++ ':' :: (b ++ ':' :: c), ch ≠ '?' ∧ ch ≠ '#' ∧ ch ≠ '%' := by
      intro ch hm
      rcases List.mem_append.mp hm with hm | hm
      · exact ⟨(ha ch hm).2.1, (ha ch hm).2.2.1, (ha ch hm).2.2.2⟩
      · rcases List.mem_cons.mp hm with hm | hm
        · subst hm; refine ⟨by decide, by decide, by decide⟩
        · rcases List.mem_append.mp hm with hm | hm
          · exact ⟨(hb ch hm).2.1, (hb ch hm).2.2.1, (hb ch hm).2.2.2⟩
          · rcases List.mem_cons.mp hm with hm | hm
            · subst hm; refine ⟨by decide, by decide, by decide⟩
            · exact hc ch hm
    rw [handleParseCh_label_query _ _ hL hqhash]
    have hmem : ':' ∈ a ++ ':' :: (b ++ ':' :: c) :=
      List.mem_append_right a (List.mem_cons_self _ _)
    have hSa : ¬ (String.mk a = "") := fun hcon => ha0 ((mkString_eq_empty_iff a).mp hcon)
    have hSb : ¬ (String.mk b = "") := fun hcon => hb0 ((mkString_eq_empty_iff b).mp hcon)
    unfold parseLabelQuery
    rw [hgi, hgs, takeUntilCh_append_cons ':' a _ hna, dropPastCh_append_cons ':' a _ hna,
      takeUntilCh_append_cons ':' b c hnb]
    simp only [Option.getD, if_pos hmem, if_pos rfl, if_neg hSa, if_neg hSb,
      if_neg (show ¬ ("JBSWY3DPEHPK3PXP" : String) = "" by decide)]
    simp only [if_true]
    rw [if_neg hSa]
  · intro d hd hd0
    have hnd : ':' ∉ d := fun hm => (hd ':' hm).1 rfl
    have hL : ∀ ch ∈ d, ch ≠ '?' ∧ ch ≠ '#' ∧ ch ≠ '%' := fun ch hm =>
      ⟨(hd ch hm).2.1, (hd ch hm).2.2.1, (hd ch hm).2.2.2⟩
    rw [handleParseCh_label_query _ _ hL hqhash]
    have hSd : ¬ (String.mk d = "") := fun hcon => hd0 ((mkString_eq_empty_iff d).mp hcon)
    unfold parseLabelQuery
    rw [hgi, hgs]
    simp only [Option.getD, if_neg hnd, if_pos rfl, if_neg hSd,
      if_neg (show ¬ ("JBSWY3DPEHPK3PXP" : String) = "" by decide)]
    simp only [if_true]
    rw [if_neg hSd]

/-- C5 witness: the amended statement applied to the concrete label
`A:B:C2:D` (so the dropped tail itself contains a further colon) and to the
concrete colon-free label `SoloName`. -/
theorem parse_label_split_segments_witness :
    handleParseCh (otpPref ++ (("A".data ++ ':' :: ("B".data ++ ':' :: "C2:D".data)) ++ '?' ::
        "secret=JBSWY3DPEHPK3PXP".data))
      = Except.ok ⟨"A", "B", "JBSWY3DPEHPK3PXP"⟩
    ∧ handleParseCh (otpPref ++ ("SoloName".data ++ '?' :: "secret=JBSWY3DPEHPK3PXP".data))
      = Except.ok ⟨"SoloName", "SoloName", "JBSWY3DPEHPK3PXP"⟩ :=
  ⟨parse_label_split_segments.1 "A".data "B".data "C2:D".data
      (by decide) (by decide) (by decide) (by decide) (by decide),
    parse_label_split_segments.2 "SoloName".data (by decide) (by decide)⟩

/-- C6: for every scanned URI that passes the prefix check and whose pathname
decodes (i.e. the URL machinery does not throw), a missing or empty secret
query parameter makes the scan fail with the missing-secret error, and the
stored account list is left unchanged: no credential is created in any
form. -/
theorem parse_missing_secret_rejected (qr : String) (rest dec : List Char)
    (hstrip : stripPrefCh otpPref qr.data = some rest)
    (hdec : decodeURIChars ('/' :: pathChars rest) = some dec)
    (hsec : getParam (queryChars rest) "secret" = none
      ∨ getParam (queryChars rest) "secret" = some "") :
    handleParse qr = Except.error ParseErr.missingSecret
    ∧ ∀ (env : ScanEnv) (accounts : List Account), handleQRScan env qr accounts = accounts := by
  have h1 : handleParse qr = Except.error ParseErr.missingSecret := by
    unfold handleParse handleParseCh
    rw [hstrip]
    show parseRest rest = Except.error ParseErr.missingSecret
    unfold parseRest
    rw [hdec]
    show parseLabelQuery (List.drop 1 dec) (queryChars rest) = Except.error ParseErr.missingSecret
    unfold parseLabelQuery
    rcases hsec with hs | hs
    · rw [hs]
    · rw [hs]
      rfl
  refine ⟨h1, fun env accounts => ?_⟩
  unfold handleQRScan
  rw [h1]

/-- C6 witness: the URI `otpauth://totp/Foo:bar?issuer=Foo` has no secret
parameter; the scan errors with the missing-secret alert and the account
list stays empty. -/
theorem parse_missing_secret_rejected_witness :
    handleParse "otpauth://totp/Foo:bar?issuer=Foo" = Except.error ParseErr.missingSecret
    ∧ handleQRScan ⟨"0", 50, 150⟩ "otpauth://totp/Foo:bar?issuer=Foo" [] = [] := by
  have h := parse_missing_secret_rejected "otpauth://totp/Foo:bar?issuer=Foo"
    "Foo:bar?issuer=Foo".data "/Foo:bar".data (by decide) (by decide) (Or.inl (by decide))
  exact ⟨h.1, h.2 ⟨"0", 50, 150⟩ []⟩

/-- C7 counterexample: the claim states a hotp URI fails with the
distinguished error UnsupportedType.  The code has no such distinguished
error: every input that does not start with the exact string
`otpauth://totp/` is rejected with the one generic invalid-QR-code alert,
so the hotp URI and arbitrary garbage produce the same error. -/
theorem parse_hotp_generic_error_cex :
    handleParse "otpauth://hotp/Foo:bar?secret=JBSWY3DPEHPK3PXP"
      = Except.error ParseErr.invalidQRCode
    ∧ handleParse "totally not a uri" = Except.error ParseErr.invalidQRCode := by
  decide

/-- C7 amended: every input whose beginning is not exactly the case-sensitive
string `otpauth://totp/` (hotp URIs included) is rejected without
constructing a credential, but with the single generic invalid-QR-code
error rather than a distinguished UnsupportedType error; the stored account
list is unchanged. -/
theorem parse_non_totp_rejected (qr : String)
    (h : stripPrefCh otpPref qr.data = none) :
    handleParse qr = Except.error ParseErr.invalidQRCode
    ∧ ∀ (env : ScanEnv) (accounts : List Account), handleQRScan env qr accounts = accounts := by
  have h1 : handleParse qr = Except.error ParseErr.invalidQRCode := by
    unfold handleParse handleParseCh
    rw [h]
  refine ⟨h1, fun env accounts => ?_⟩
  unfold handleQRScan
  rw [h1]

/-- C7 witness: the amended statement applied to the hotp URI from the
claim. -/
theorem parse_non_totp_rejected_witness :
    handleParse "otpauth://hotp/Foo:bar?secret=JBSWY3DPEHPK3PXP"
      = Except.error ParseErr.invalidQRCode
    ∧ handleQRScan ⟨"0", 50, 150⟩ "otpauth://hotp/Foo:bar?secret=JBSWY3DPEHPK3PXP" [] = [] := by
  have h := parse_non_totp_rejected "otpauth://hotp/Foo:bar?secret=JBSWY3DPEHPK3PXP" (by decide)
  exact ⟨h.1, h.2 ⟨"0", 50, 150⟩ []⟩

/-- C10: the stored credential retains only issuer, accountName and secret.
Part one: the parse result depends on the query string only through the
`issuer` and `secret` parameters, so the `algorithm`, `digits` and `period`
parameters have no influence on the constructed credential.  Part two: code
generation reads only the credential's secret, so two successfully parsed
URIs with equal secrets generate identical codes at the same time under the
same library behaviour. -/
theorem parse_uses_only_issuer_and_secret :
    (∀ (path q1 q2 : List Char),
        (∀ ch ∈ path, ch ≠ '?' ∧ ch ≠ '#') → '#' ∉ q1 → '#' ∉ q2 →
        getParam q1 "issuer" = getParam q2 "issuer" →
        getParam q1 "secret" = getParam q2 "secret" →
        handleParseCh (otpPref ++ (path ++ '?' :: q1))
          = handleParseCh (otpPref ++ (path ++ '?' :: q2)))
    ∧ (∀ (lib : JsLib) (u1 u2 : String) (c1 c2 : ParsedCred) (t : Int),
        handleParse u1 = Except.ok c1 → handleParse u2 = Except.ok c2 →
        c1.secret = c2.secret →
        generateTOTP lib c1.secret t = generateTOTP lib c2.secret t) := by
  constructor
  · intro path q1 q2 hp h1 h2 hi hs
    have e1 := stripPrefCh_append otpPref (path ++ '?' :: q1)
    have e2 := stripPrefCh_append otpPref (path ++ '?' :: q2)
    unfold handleParseCh
    rw [e1, e2]
    show parseRest (path ++ '?' :: q1) = parseRest (path ++ '?' :: q2)
    unfold parseRest
    rw [pathChars_append_query path q1 hp, pathChars_append_query path q2 hp,
      queryChars_append_query path q1 hp, queryChars_append_query path q2 hp,
      takeUntilCh_of_not_mem '#' q1 h1, takeUntilCh_of_not_mem '#' q2 h2]
    cases hdec : decodeURIChars ('/' :: path) with
    | none => rfl
    | some dec => exact parseLabelQuery_congr (dec.drop 1) q1 q2 hi hs
  · intro lib u1 u2 c1 c2 t hp1 hp2 hsec
    rw [hsec]

/-- C10 witness: the first part applied to a concrete label and to queries
differing exactly in `algorithm`, `digits` and `period`; the second part
applied to two concrete URIs with equal secrets but different extra
parameters. -/
theorem parse_uses_only_issuer_and_secret_witness :
    handleParseCh (otpPref ++ ("Ex:alice".data ++ '?' ::
        "secret=JBSWY3DPEHPK3PXP&algorithm=SHA256&digits=8&period=60".data))
      = handleParseCh (otpPref ++ ("Ex:alice".data ++ '?' :: "secret=JBSWY3DPEHPK3PXP".data))
    ∧ generateTOTP failingLib "JBSWY3DPEHPK3PXP" 0 = generateTOTP failingLib "JBSWY3DPEHPK3PXP" 0 :=
  ⟨parse_uses_only_issuer_and_secret.1 "Ex:alice".data
      "secret=JBSWY3DPEHPK3PXP&algorithm=SHA256&digits=8&period=60".data
      "secret=JBSWY3DPEHPK3PXP".data
      (by decide) (by decide) (by decide) (by decide) (by decide),
    parse_uses_only_issuer_and_secret.2 failingLib
      "otpauth://totp/A?secret=JBSWY3DPEHPK3PXP&digits=8"
      "otpauth://totp/A?secret=JBSWY3DPEHPK3PXP&period=60"
      ⟨"A", "A", "JBSWY3DPEHPK3PXP"⟩ ⟨"A", "A", "JBSWY3DPEHPK3PXP"⟩ 0
      (by decide) (by decide) rfl⟩
